import Mathlib

/-!
Shallow embedding of the i2c register framework of the `air_quality`
repository (`src/sensors/i2c_base.py` and the device drivers built on it),
together with theorems checking the natural-language specification against
the code.

Bytes are modelled as `List Nat` with every element `< 256`; Python's
`int.to_bytes` / `int.from_bytes` become explicit base-256 conversions,
and fallible Python code (exceptions) returns `Option`.
-/

set_option allowUnsafeReducibility true

attribute [local semireducible] Rat.mul Rat.add Rat.sub Rat.inv

namespace AirQuality

/-- Byte order, mirroring the `byte_order` strings `"big"` / `"little"`. -/
inductive ByteOrder where
  | big
  | little
deriving DecidableEq, Repr

/-- Big-endian bytes of `v`, `nb` bytes long; models `v.to_bytes(nb, "big")`
for a value that fits. -/
def toBytesBE : Nat → Nat → List Nat
  | 0, _ => []
  | nb + 1, v => toBytesBE nb (v / 256) ++ [v % 256]

/-- Big-endian interpretation of a byte list; models `int.from_bytes(bs, "big")`. -/
def fromBytesBE (bs : List Nat) : Nat :=
  bs.foldl (fun acc b => acc * 256 + b) 0

/-- Interpretation of a byte list in a given byte order; models `int.from_bytes`. -/
def fromBytes (order : ByteOrder) (bs : List Nat) : Nat :=
  match order with
  | .big => fromBytesBE bs
  | .little => fromBytesBE bs.reverse

/-- Models `v.to_bytes(nb, order)`: `none` when the value does not fit
(Python raises `OverflowError`). -/
def toBytesOpt (order : ByteOrder) (nb : Nat) (v : Nat) : Option (List Nat) :=
  if v < 256 ^ nb then
    some (match order with
      | .big => toBytesBE nb v
      | .little => (toBytesBE nb v).reverse)
  else none

/-- Models `v.to_bytes(nb, order, signed=True)`: two's-complement encoding,
`none` when the value does not fit (Python raises `OverflowError`). -/
def sintToBytesOpt (order : ByteOrder) (nb : Nat) (v : Int) : Option (List Nat) :=
  if -(2 ^ (8 * nb - 1) : Int) ≤ v ∧ v < (2 ^ (8 * nb - 1) : Int) then
    toBytesOpt order nb (if 0 ≤ v then v.toNat else (v + 2 ^ (8 * nb)).toNat)
  else none

/-- Models `int.from_bytes(bs, order, signed=True)`: two's-complement decoding. -/
def sintFromBytes (order : ByteOrder) (bs : List Nat) : Int :=
  let u := fromBytes order bs
  if u < 2 ^ (8 * bs.length - 1) then (u : Int) else (u : Int) - 2 ^ (8 * bs.length)

/-- The floor of a rational as integer division of numerator by denominator,
as the kernel can evaluate it. -/
def pyFloor (q : ℚ) : Int := q.num / q.den

/-- Python's `round()` on a rational: round half to even (banker's rounding). -/
def pyRound (q : ℚ) : Int :=
  if q - pyFloor q < 1 / 2 then pyFloor q
  else if 1 / 2 < q - pyFloor q then pyFloor q + 1
  else if pyFloor q % 2 = 0 then pyFloor q else pyFloor q + 1

/-- A Python value passed to or returned from an encoder. Numbers (int, bool
and float alike, since Python compares them across types) are rationals;
lookup keys may also be strings. -/
inductive Val where
  | num (q : ℚ)
  | str (s : String)
deriving DecidableEq, Repr

/-- Helper for `bitLength`, structurally recursive on a fuel argument so the
kernel can evaluate it (`n` itself is always enough fuel). -/
def bitLengthAux : Nat → Nat → Nat
  | 0, _ => 0
  | fuel + 1, n => if n = 0 then 0 else bitLengthAux fuel (n / 2) + 1

/-- Python's `int.bit_length()` for non-negative integers. -/
def bitLength (n : Nat) : Nat := bitLengthAux n n

/-- The loop body of `_count_trailing_zeros` (both variants share it):
`for i in range(mask.bit_length()): if mask & 1: return count; count += 1; mask >>= 1`. -/
def ctzLoop : Nat → Nat → Nat → Nat
  | 0, _, count => count
  | fuel + 1, mask, count =>
    if mask % 2 = 1 then count else ctzLoop fuel (mask / 2) (count + 1)

/-- Function `_count_trailing_zeros` from `src/sensors/i2c_base.py`: raises `ValueError`
(`none`) when the mask is zero, otherwise counts trailing zero bits. -/
def count_trailing_zeros (mask : Nat) : Option Nat :=
  if mask = 0 then none
  else some (ctzLoop (bitLength mask) mask 0)

/-- Function `_count_trailing_zeros` from `src/air-quality/i2c_base.py`: same loop but
without the zero-mask guard; for `mask = 0` the loop body never runs
(`bit_length() == 0`) and the function returns the initial `count = 0`. -/
def old_count_trailing_zeros (mask : Nat) : Nat :=
  ctzLoop (bitLength mask) mask 0

/-- The encoder attached to a field: one constructor per concrete `Encoder`
subclass used by the claims (`UIntEncoder`, `SIntEncoder`, `LookupTable`,
and the CCS811 fixed-point encoders). -/
inductive EncoderKind where
  | uint
  | sint
  | lookup (table : List (Val × Nat))
  | humidityFP
  | temperatureFP
deriving DecidableEq, Repr

/-- Immutable properties of a field in an i2c register
(`Field` from `src/sensors/i2c_base.py`). `shift` is the precomputed
`_shift`; `mkField` sets it from `_count_trailing_zeros` when a bit mask
is given. -/
structure Field where
  name : String
  byteIndex : List Nat
  bitMask : Option Nat
  encoder : EncoderKind
  byteOrder : ByteOrder
  readOnly : Bool
  shift : Option Nat
deriving DecidableEq, Repr

instance : Inhabited Field :=
  ⟨{ name := "", byteIndex := [0], bitMask := none, encoder := .uint,
     byteOrder := .big, readOnly := false, shift := none }⟩

/-- Constructor `Field.__init__`: stores the attributes and precomputes `_shift` via
`_count_trailing_zeros`; construction fails (`ValueError`) when the bit mask
is zero. -/
def mkField (name : String) (byteIndex : List Nat) (bitMask : Option Nat)
    (encoder : EncoderKind) (byteOrder : ByteOrder) (readOnly : Bool) :
    Option Field :=
  match bitMask with
  | none =>
      some { name, byteIndex, bitMask := none, encoder, byteOrder, readOnly,
             shift := none }
  | some m =>
      (count_trailing_zeros m).map fun s =>
        { name, byteIndex, bitMask := some m, encoder, byteOrder, readOnly,
          shift := some s }

/-- Number of bytes a field spans: `byte_index[-1] - byte_index[0] + 1`. -/
def Field.nBytes (f : Field) : Nat :=
  f.byteIndex.getLastD 0 - f.byteIndex.headD 0 + 1

/-- Method `Encoder.encode(value, field)` for each concrete encoder:
conversion of a human-readable value to raw bytes in the field's byte order.
A `none` models the exception Python raises (wrong type, `OverflowError`,
`KeyError` on a missing lookup key). -/
def encoderEncode (e : EncoderKind) (v : Val) (f : Field) : Option (List Nat) :=
  match e, v with
  | .uint, .num q =>
      if q.den = 1 ∧ 0 ≤ q.num then toBytesOpt f.byteOrder f.nBytes q.num.toNat
      else none
  | .sint, .num q =>
      if q.den = 1 then sintToBytesOpt f.byteOrder f.nBytes q.num else none
  | .lookup t, v =>
      ((t.find? (fun p => p.fst == v)).map Prod.snd).bind fun code =>
        sintToBytesOpt f.byteOrder f.nBytes (code : Int)
  | .humidityFP, .num q =>
      let val := pyRound (q * 512)
      if 0 ≤ val then toBytesOpt f.byteOrder f.nBytes val.toNat else none
  | .temperatureFP, .num q =>
      let val := max (pyRound ((q + 25) * 512)) 0
      toBytesOpt f.byteOrder f.nBytes val.toNat
  | _, _ => none

/-- Method `Encoder.decode(value, field)` for each concrete encoder:
conversion of raw bytes (in the field's byte order) to a human-readable
value. For `LookupTable`, a raw integer matching no table entry raises
`ValueError` (`none`). -/
def encoderDecode (e : EncoderKind) (bs : List Nat) (f : Field) : Option Val :=
  match e with
  | .uint => some (.num (fromBytes f.byteOrder bs))
  | .sint => some (.num (sintFromBytes f.byteOrder bs))
  | .lookup t =>
      let intVal := fromBytes f.byteOrder bs
      (t.find? (fun p => p.snd == intVal)).map Prod.fst
  | .humidityFP => some (.num ((fromBytes f.byteOrder bs : ℚ) / 512))
  | .temperatureFP => some (.num ((fromBytes f.byteOrder bs : ℚ) / 512 - 25))

/-- Method `Field._decode_mask`: with no bit mask the bytes pass through; otherwise
interpret them in the field's byte order, mask, shift right by `_shift`, and
repack to a byte string of the input's length. -/
def Field.decode_mask (f : Field) (raw_bytes : List Nat) : Option (List Nat) :=
  match f.bitMask with
  | none => some raw_bytes
  | some m =>
      toBytesOpt f.byteOrder raw_bytes.length
        ((fromBytes f.byteOrder raw_bytes &&& m) >>> f.shift.getD 0)

/-- Method `Field._encode_mask`: with no bit mask the bytes pass through; otherwise
interpret them in the field's byte order, shift left by `_shift`, and repack
to `byte_index[-1] - byte_index[0] + 1` bytes. -/
def Field.encode_mask (f : Field) (encoded_bytes : List Nat) : Option (List Nat) :=
  match f.bitMask with
  | none => some encoded_bytes
  | some _ =>
      toBytesOpt f.byteOrder f.nBytes
        (fromBytes f.byteOrder encoded_bytes <<< f.shift.getD 0)

/-- Method `Field.encode`: encoder first, then `_encode_mask`. -/
def Field.encode (f : Field) (v : Val) : Option (List Nat) :=
  (encoderEncode f.encoder v f).bind f.encode_mask

/-- Method `Field.decode`: `_decode_mask` first, then the encoder's decode. -/
def Field.decode (f : Field) (bs : List Nat) : Option Val :=
  (f.decode_mask bs).bind fun bs2 => encoderDecode f.encoder bs2 f

/-- Insert into a Python-dict association list: an existing key keeps its
position and gets the new value, a fresh key is appended. -/
def dictUpsert {β : Type} (m : List (String × β)) (k : String) (v : β) :
    List (String × β) :=
  if m.any (fun p => p.fst == k) then
    m.map (fun p => if p.fst == k then (k, v) else p)
  else m ++ [(k, v)]

/-- The dict comprehension `{field.name: field for field in fields}`:
later duplicates silently overwrite earlier entries. -/
def buildDict {β : Type} (key : β → String) (xs : List β) : List (String × β) :=
  xs.foldl (fun m x => dictUpsert m (key x) x) []

/-- Immutable properties of an i2c register
(`Register` from `src/sensors/i2c_base.py`); `fields` is the name-keyed
dict built by `__init__`. -/
structure Register where
  name : String
  address : Nat
  fields : List (String × Field)
  nBits : Nat
  readOnly : Bool
  nonVolatile : Bool
deriving DecidableEq, Repr

/-- Constructor `Register.__init__`: stores the attributes and builds the `fields` dict.
No validation of any kind is performed, so construction never fails. -/
def mkRegister (name : String) (address : Nat) (fields : List Field)
    (nBits : Nat) (readOnly : Bool) (nonVolatile : Bool) : Option Register :=
  some { name, address, fields := buildDict Field.name fields, nBits,
         readOnly, nonVolatile }

/-- Lookup `self.fields[name]`: dict lookup, `KeyError` modelled as `none`. -/
def Register.getField (r : Register) (n : String) : Option Field :=
  (r.fields.find? (fun p => p.fst == n)).map Prod.snd

/-- Immutable properties of an I2C device
(`Device` from `src/sensors/i2c_base.py`). -/
structure Device where
  name : String
  chipId : Nat
  i2cAddresses : List (Nat × Nat)
  registers : List (String × Register)
  byteOrder : ByteOrder
deriving DecidableEq, Repr

/-- Constructor `Device.__init__`: stores the attributes and builds the name-keyed
register dict. No validation of any kind is performed, so construction
never fails. -/
def mkDevice (name : String) (chipId : Nat) (i2cAddresses : List (Nat × Nat))
    (registers : List Register) (byteOrder : ByteOrder) : Option Device :=
  some { name, chipId, i2cAddresses,
         registers := buildDict Register.name registers, byteOrder }

/-- Option-valued `mapM` over a list: the whole computation fails as soon as
one element fails, modelling a Python loop whose body may raise. -/
def mapOptM {α β : Type} (f : α → Option β) : List α → Option (List β)
  | [] => some []
  | a :: l => (f a).bind fun b => (mapOptM f l).map (fun bs => b :: bs)

/-- Encoding step of the loop in `_field_values_to_raw_bytes`:
`field = self.fields[name]; byte_map[field.byte_index].append(field.encode(value))`
produces the pair (group key, encoded fragment). -/
def encodeOne (r : Register) (nv : String × Val) : Option (List Nat × List Nat) :=
  (r.getField nv.fst).bind fun f =>
    (f.encode nv.snd).map fun frag => (f.byteIndex, frag)

/-- First-occurrence deduplication, mirroring how the keys of a
`defaultdict` accumulate: a key is appended the first time it is seen. -/
def firstDedup (ks : List (List Nat)) : List (List Nat) :=
  ks.foldl (fun acc k => if k ∈ acc then acc else acc ++ [k]) []

/-- Lexicographic order on byte-index tuples, as Python's `sorted` compares
tuples of ints. -/
def lexLeB : List Nat → List Nat → Bool
  | [], _ => true
  | _ :: _, [] => false
  | a :: as, b :: bs => a < b || (a == b && lexLeB as bs)

/-- The relation form of `lexLeB`, used with `List.insertionSort`. -/
def lexLe (a b : List Nat) : Prop := lexLeB a b = true

instance : DecidableRel lexLe := fun a b => by
  unfold lexLe
  infer_instance

/-- Python `sorted(byte_map)`: the group keys in ascending order. -/
def sortKeys (ks : List (List Nat)) : List (List Nat) :=
  List.insertionSort lexLe ks

/-- The merge step of `_field_values_to_raw_bytes` for one group: a group
with a single fragment is kept as-is; several fragments are interpreted as
big-endian integers, merged with bitwise OR, and repacked to
`index[-1] - index[0] + 1` big-endian bytes. -/
def mergeGroup (key : List Nat) (frags : List (List Nat)) : Option (List Nat) :=
  match frags with
  | [b] => some b
  | _ =>
      toBytesOpt .big (key.getLastD 0 - key.headD 0 + 1)
        (frags.foldl (fun acc b => acc ||| fromBytesBE b) 0)

/-- Method `Register._field_values_to_raw_bytes`: encode every (name, value) pair,
group the fragments by `byte_index`, merge multi-fragment groups by bitwise
OR, then concatenate the groups in sorted key order. -/
def field_values_to_raw_bytes (r : Register) (field_values : List (String × Val)) :
    Option (List Nat) :=
  (mapOptM (encodeOne r) field_values).bind fun pairs =>
    (mapOptM
        (fun k => mergeGroup k ((pairs.filter (fun p => p.fst == k)).map Prod.snd))
        (sortKeys (firstDedup (pairs.map Prod.fst)))).map
      fun chunks => chunks.flatten

/-- Slice `raw_bytes[field._slice]`: the sublist from `byte_index[0]` up to and
including `byte_index[-1]` (Python slices clamp out-of-range bounds). -/
def sliceBytes (raw : List Nat) (f : Field) : List Nat :=
  (raw.drop (f.byteIndex.headD 0)).take f.nBytes

/-- Method `Register._raw_bytes_to_field_values`: decode each field from its slice
of the raw register bytes. -/
def raw_bytes_to_field_values (r : Register) (raw : List Nat) :
    Option (List (String × Val)) :=
  mapOptM (fun p => (p.snd.decode (sliceBytes raw p.snd)).map fun v => (p.fst, v))
    r.fields

/-- The register cache of a `BaseRegisterAPI`: one entry per field,
initialised to `None`. -/
abbrev Cache : Type := List (String × Option Val)

/-- Constructor `BaseRegisterAPI.__init__`: `{field.name: None for field in fields}`. -/
def initCache (r : Register) : Cache :=
  r.fields.map fun p => (p.fst, (none : Option Val))

/-- Method `BaseRegisterAPI.read`, with the transport read supplied as `busBytes`.
The returned `Bool` records whether the transport read was performed. The
guard `if self._reg.non_volatile and has_been_read and not ignore_cache:`
has `pass` as its body, so it changes nothing and the transport is always
used; `hasBeenRead` is computed as in the source but has no effect. -/
def regRead (r : Register) (cached : Cache) (busBytes : List Nat)
    (ignoreCache : Bool) : Option (Cache × Bool) :=
  let hasBeenRead := cached.any fun p => p.snd.isSome
  let _guardIsDead := r.nonVolatile && hasBeenRead && !ignoreCache
  (raw_bytes_to_field_values r busBytes).map fun fvs =>
    ((fvs.map fun p => (p.fst, some p.snd) : Cache), true)

/-- Modelled from the spec: the merge-and-concatenate description of
`_field_values_to_raw_bytes` — every byte-group is merged by bitwise OR of
its already-shifted fragments (a singleton group included) and repacked to
`index[-1] - index[0] + 1` bytes; groups are concatenated in ascending key
order. -/
def specMergeGroup (key : List Nat) (frags : List (List Nat)) : Option (List Nat) :=
  toBytesOpt .big (key.getLastD 0 - key.headD 0 + 1)
    (frags.foldl (fun acc b => acc ||| fromBytesBE b) 0)

/-- Modelled from the spec: `_field_values_to_raw_bytes` as the spec words
it — encode each value via its field, group by `byte_index`, OR-merge every
group without further alignment, sort groups by key, concatenate. -/
def spec_field_values_to_raw_bytes (r : Register)
    (field_values : List (String × Val)) : Option (List Nat) :=
  (mapOptM (encodeOne r) field_values).bind fun pairs =>
    (mapOptM
        (fun k => specMergeGroup k ((pairs.filter (fun p => p.fst == k)).map Prod.snd))
        (sortKeys (firstDedup (pairs.map Prod.fst)))).map
      fun chunks => chunks.flatten

/-- One observable side effect of a register `write()`. -/
inductive Effect where
  | cacheSet (c : Cache)
  | busWrite (regAddr : Nat) (bytes : List Nat)
deriving DecidableEq

/-- Python `dict.update` on a register cache. -/
def cacheUpdate (c : Cache) (fm : List (String × Val)) : Cache :=
  fm.foldl (fun m kv => dictUpsert m kv.fst (some kv.snd)) c

/-- A field-value map reinterpreted as a fully-populated cache
(`self._cached = field_map`). -/
def cacheOfFieldValues (fm : List (String × Val)) : Cache :=
  fm.map fun p => (p.fst, some p.snd)

/-- A cache reinterpreted as a field-value map; fails on a `None` entry
(whose encoding would raise in Python). -/
def cacheToFieldValues (c : Cache) : Option (List (String × Val)) :=
  mapOptM (fun p => p.snd.map fun v => (p.fst, v)) c

/-- Execution of an effect list when the transport write raises: cache
updates apply, and the state freezes at the first bus write. -/
def runToBusFailure : List Effect → Cache → Cache
  | [], c => c
  | .cacheSet c2 :: rest, _ => runToBusFailure rest c2
  | .busWrite _ _ :: _, c => c

/-- BMP280 oversampling lookup table `{0: 0b000, 1: 0b001, 2: 0b010,
4: 0b011, 8: 0b100, 16: 0b101}`. -/
def bmpOversamplingTable : List (Val × Nat) :=
  [(.num 0, 0), (.num 1, 1), (.num 2, 2), (.num 4, 3), (.num 8, 4), (.num 16, 5)]

/-- BMP280 power-mode lookup table `{"sleep": 0b00, "forced": 0b10,
"normal": 0b11}`. -/
def bmpModeTable : List (Val × Nat) :=
  [(.str "sleep", 0b00), (.str "forced", 0b10), (.str "normal", 0b11)]

/-- BMP280 standby-duration lookup table of the `t_sb` field. -/
def bmpTsbTable : List (Val × Nat) :=
  [(.num (1 / 2), 0b000), (.num (125 / 2), 0b001), (.num 125, 0b010),
   (.num 250, 0b011), (.num 500, 0b100), (.num 1000, 0b101),
   (.num 2000, 0b110), (.num 4000, 0b111)]

/-- BMP280 IIR filter lookup table of the `filter` field. -/
def bmpFilterTable : List (Val × Nat) :=
  [(.num 1, 0b000), (.num 2, 0b001), (.num 4, 0b010), (.num 8, 0b011),
   (.num 16, 0b100)]

/-- HDC1080 temperature-resolution lookup table `{14: 0, 11: 1}`. -/
def hdcTempResTable : List (Val × Nat) := [(.num 14, 0), (.num 11, 1)]

/-- HDC1080 humidity-resolution lookup table `{14: 0b00, 11: 0b01, 8: 0b10}`. -/
def hdcRhResTable : List (Val × Nat) :=
  [(.num 14, 0b00), (.num 11, 0b01), (.num 8, 0b10)]

/-- CCS811 sample-period lookup table `{0: 0, 1: 1, 10: 0b010, 60: 0b011,
0.25: 0b100}`. -/
def ccsSamplePeriodTable : List (Val × Nat) :=
  [(.num 0, 0), (.num 1, 1), (.num 10, 0b010), (.num 60, 0b011),
   (.num (1 / 4), 0b100)]

/-- The BMP280 `ctrl_meas` register (address 0xF4). -/
def bmpCtrlMeasReg : Register :=
  (mkRegister "ctrl_meas" 0xF4
    [(mkField "osrs_t" [0] (some 0b11100000) (.lookup bmpOversamplingTable) .big false).getD default,
     (mkField "osrs_p" [0] (some 0b00011100) (.lookup bmpOversamplingTable) .big false).getD default,
     (mkField "mode" [0] (some 0b00000011) (.lookup bmpModeTable) .big false).getD default]
    8 false false).getD ⟨"", 0, [], 0, false, false⟩

/-- The BMP280 `config` register (address 0xF5). -/
def bmpConfigReg : Register :=
  (mkRegister "config" 0xF5
    [(mkField "t_sb" [0] (some 0b11100000) (.lookup bmpTsbTable) .big false).getD default,
     (mkField "filter" [0] (some 0b00011100) (.lookup bmpFilterTable) .big false).getD default,
     (mkField "spi3w_en" [0] (some 0b0000001) .uint .big false).getD default]
    8 false false).getD ⟨"", 0, [], 0, false, false⟩

/-- The BMP280 `chip_id` register (address 0xD0, read-only, non-volatile). -/
def bmpChipIdReg : Register :=
  (mkRegister "chip_id" 0xD0
    [(mkField "id" [0] none .uint .big false).getD default]
    8 true true).getD ⟨"", 0, [], 0, false, false⟩

/-- The HDC1080 `config` register (address 0x02, 16 bits). -/
def hdcConfigReg : Register :=
  (mkRegister "config" 0x02
    [(mkField "reset" [0] (some 0b10000000) .uint .big false).getD default,
     (mkField "heater_on" [0] (some 0b00100000) .uint .big false).getD default,
     (mkField "measure_both" [0] (some 0b00010000) .uint .big false).getD default,
     (mkField "battery_low" [0] (some 0b00001000) .uint .big true).getD default,
     (mkField "temp_res_bits" [0] (some 0b00000100) (.lookup hdcTempResTable) .big false).getD default,
     (mkField "rh_res_bits" [0] (some 0b00000011) (.lookup hdcRhResTable) .big false).getD default,
     (mkField "reserved" [1] none .uint .big false).getD default]
    16 false false).getD ⟨"", 0, [], 0, false, false⟩

/-- The CCS811 `meas_mode` register (address 0x01). -/
def ccsMeasModeReg : Register :=
  (mkRegister "meas_mode" 0x01
    [(mkField "sample_period" [0] (some 0b01110000) (.lookup ccsSamplePeriodTable) .big false).getD default,
     (mkField "enable_interrupt" [0] (some 0b00001000) .uint .big false).getD default,
     (mkField "interrupt_on_thresh" [0] (some 0b00000100) .uint .big false).getD default]
    8 false false).getD ⟨"", 0, [], 0, false, false⟩

/-- The CCS811 `env_data` register (address 0x05, 32 bits). -/
def ccsEnvDataReg : Register :=
  (mkRegister "env_data" 0x05
    [(mkField "humidity" [0, 1] none .humidityFP .big false).getD default,
     (mkField "temperature" [2, 3] none .temperatureFP .big false).getD default]
    32 false false).getD ⟨"", 0, [], 0, false, false⟩

/-- The BMP280 `dig_t3` calibration field: bytes 4-5, `SIntEncoder`,
default (big) byte order. -/
def bmpDigT3Field : Field :=
  (mkField "dig_t3" [4, 5] none .sint .big false).getD default

/-- The boolean truth value as Python coerces it into an int field. -/
def boolVal (b : Bool) : Val := .num (if b then 1 else 0)

/-- Method `CtrlMeasAPI.write` of the BMP280 as an effect sequence: validate,
update the cache with the new field map, encode, then write to the bus. -/
def ctrlMeasWrite (cached : Cache) (pressure_oversampling temperature_oversampling : ℚ)
    (measurement_mode : String) : Option (List Effect) :=
  if measurement_mode ∉ ["trigger", "interval", "sleep"] then none
  else if pressure_oversampling ∉ ([0, 1, 2, 4, 8, 16] : List ℚ) then none
  else if temperature_oversampling ∉ ([0, 1, 2, 4, 8, 16] : List ℚ) then none
  else
    let mode := (([("trigger", "forced"), ("interval", "normal"),
        ("sleep", "sleep")] : List (String × String)).lookup measurement_mode).getD ""
    let field_map : List (String × Val) :=
      [("osrs_t", .num temperature_oversampling),
       ("osrs_p", .num pressure_oversampling),
       ("mode", .str mode)]
    let c2 := cacheUpdate cached field_map
    (field_values_to_raw_bytes bmpCtrlMeasReg field_map).map fun enc =>
      [.cacheSet c2, .busWrite bmpCtrlMeasReg.address enc]

/-- Method `ConfigAPI.write` of the BMP280 as an effect sequence. -/
def bmpConfigWrite (cached : Cache) (measurement_period_ms smoothing_const : ℚ)
    (disable_I2C : Bool) : Option (List Effect) :=
  if measurement_period_ms ∉ ([1 / 2, 125 / 2, 125, 250, 500, 1000, 2000, 4000] : List ℚ) then
    none
  else if smoothing_const ∉ ([1, 2, 4, 8, 16] : List ℚ) then none
  else
    let field_map : List (String × Val) :=
      [("t_sb", .num measurement_period_ms),
       ("filter", .num smoothing_const),
       ("spi3w_en", boolVal disable_I2C)]
    let c2 := cacheUpdate cached field_map
    (field_values_to_raw_bytes bmpConfigReg field_map).map fun enc =>
      [.cacheSet c2, .busWrite bmpConfigReg.address enc]

/-- Method `ConfigAPI.write` of the HDC1080 as an effect sequence: note that the
bytes written are encoded from the whole updated cache. -/
def hdcConfigWrite (cached : Cache) (soft_reset heater_on : Bool)
    (temp_resolution_bits humidity_resolution_bits : ℚ) (measure_both : Bool) :
    Option (List Effect) :=
  if temp_resolution_bits ∉ ([11, 14] : List ℚ) then none
  else if humidity_resolution_bits ∉ ([8, 11, 14] : List ℚ) then none
  else
    let field_map : List (String × Val) :=
      [("reset", boolVal soft_reset),
       ("heater_on", boolVal heater_on),
       ("temp_res_bits", .num temp_resolution_bits),
       ("rh_res_bits", .num humidity_resolution_bits),
       ("measure_both", boolVal measure_both),
       ("reserved", .num 0),
       ("battery_low", boolVal false)]
    let c2 := cacheUpdate cached field_map
    (cacheToFieldValues c2).bind fun fvs =>
      (field_values_to_raw_bytes hdcConfigReg fvs).map fun enc =>
        [.cacheSet c2, .busWrite hdcConfigReg.address enc]

/-- Method `MeasModeAPI.write` of the CCS811 as an effect sequence: the cache is
replaced by the new field map, which is then encoded. -/
def ccsMeasModeWrite (_cached : Cache) (sample_period : ℚ) : Option (List Effect) :=
  if sample_period ∉ ([0, 1 / 4, 1, 10, 60] : List ℚ) then none
  else
    let field_map : List (String × Val) :=
      [("sample_period", .num sample_period),
       ("enable_interrupt", boolVal false),
       ("interrupt_on_thresh", boolVal false)]
    let c2 := cacheOfFieldValues field_map
    (field_values_to_raw_bytes ccsMeasModeReg field_map).map fun enc =>
      [.cacheSet c2, .busWrite ccsMeasModeReg.address enc]

/-- Method `EnvDataAPI.write` of the CCS811 as an effect sequence: the cache is
replaced by the new field map, which is then encoded. -/
def ccsEnvDataWrite (_cached : Cache) (temperature humidity : ℚ) :
    Option (List Effect) :=
  let field_map : List (String × Val) :=
    [("temperature", .num temperature), ("humidity", .num humidity)]
  let c2 := cacheOfFieldValues field_map
  (field_values_to_raw_bytes ccsEnvDataReg field_map).map fun enc =>
    [.cacheSet c2, .busWrite ccsEnvDataReg.address enc]

/-- The register of the C1/C4 example: two one-byte fields `f1`
(bit_mask 0xF0) and `f2` (bit_mask 0x0F) with the default `UIntEncoder`. -/
def c1Reg : Register :=
  (mkRegister "r" 0
    [(mkField "f1" [0] (some 0xF0) .uint .big false).getD default,
     (mkField "f2" [0] (some 0x0F) .uint .big false).getD default]
    8 false false).getD ⟨"", 0, [], 0, false, false⟩

/-- The BMP280 `ctrl_meas` `mode` field (bit_mask 0b11, lookup encoder). -/
def bmpModeField : Field :=
  (mkField "mode" [0] (some 0b11) (.lookup bmpModeTable) .big false).getD default

/-- Modelled from source `src/air-quality/i2c_base.py`: `Field.__init__` of
the older framework variant computes `_shift` with its own
`_count_trailing_zeros`, which has no zero-mask guard, so construction never
fails. (That variant has no `byte_order` attribute and always masks
big-endian, so the field is represented with `byteOrder := .big`.) -/
def old_mkField (name : String) (byteIndex : List Nat) (bitMask : Option Nat)
    (encoder : EncoderKind) (readOnly : Bool) : Option Field :=
  some { name, byteIndex, bitMask, encoder, byteOrder := .big, readOnly,
         shift := bitMask.map old_count_trailing_zeros }

/-- Dict lookup on a `Device`'s register map. -/
def Device.getRegister (d : Device) (n : String) : Option Register :=
  (d.registers.find? (fun p => p.fst == n)).map Prod.snd

/-- The CCS811 `env_data` humidity field. -/
def ccsHumField : Field :=
  (mkField "humidity" [0, 1] none .humidityFP .big false).getD default

/-- The CCS811 `env_data` temperature field. -/
def ccsTempField : Field :=
  (mkField "temperature" [2, 3] none .temperatureFP .big false).getD default

/-- Recognizer for the observable pattern of a caching `write()`: first the
cache assignment, then the single transport write. -/
def isCacheThenBus (es : List Effect) : Bool :=
  match es with
  | [.cacheSet _, .busWrite _ _] => true
  | _ => false

/-- The cache stored by the leading cache assignment of an effect list. -/
def firstCacheSet (es : List Effect) : Option Cache :=
  match es with
  | .cacheSet c :: _ => some c
  | _ => none

/-- The field of the C6 example: one byte, bit_mask 0b11110000. -/
def c6Field : Field :=
  (mkField "f" [0] (some 0b11110000) .uint .big false).getD default

theorem toBytesBE_length (nb v : Nat) : (toBytesBE nb v).length = nb := by
  induction nb generalizing v with
  | zero => simp [toBytesBE]
  | succ n ih => simp [toBytesBE, ih]

theorem toBytesBE_lt (nb v : Nat) : ∀ b ∈ toBytesBE nb v, b < 256 := by
  induction nb generalizing v with
  | zero => simp [toBytesBE]
  | succ n ih =>
    intro b hb
    simp only [toBytesBE, List.mem_append, List.mem_singleton] at hb
    rcases hb with h | h
    · exact ih _ _ h
    · simp [h, Nat.mod_lt _ (by norm_num : (0:Nat) < 256)]

theorem fromBytesBE_append (l1 l2 : List Nat) :
    fromBytesBE (l1 ++ l2) = l2.foldl (fun acc b => acc * 256 + b) (fromBytesBE l1) := by
  simp [fromBytesBE, List.foldl_append]

theorem fromBytesBE_toBytesBE {nb v : Nat} (h : v < 256 ^ nb) :
    fromBytesBE (toBytesBE nb v) = v := by
  induction nb generalizing v with
  | zero =>
    simp only [pow_zero, Nat.lt_one_iff] at h
    simp [toBytesBE, fromBytesBE, h]
  | succ n ih =>
    have hdiv : v / 256 < 256 ^ n := by
      apply Nat.div_lt_of_lt_mul
      calc v < 256 ^ (n + 1) := h
        _ = 256 * 256 ^ n := by ring
    simp only [toBytesBE, fromBytesBE_append, List.foldl_cons, List.foldl_nil]
    rw [ih hdiv]
    omega

theorem fromBytesBE_lt (bs : List Nat) (h : ∀ b ∈ bs, b < 256) :
    fromBytesBE bs < 256 ^ bs.length := by
  induction bs using List.reverseRecOn with
  | nil => simp [fromBytesBE]
  | append_singleton l b ih =>
    have hb : b < 256 := h b (by simp)
    have hl : fromBytesBE l < 256 ^ l.length := ih (fun x hx => h x (by simp [hx]))
    simp only [fromBytesBE_append, List.foldl_cons, List.foldl_nil, List.length_append,
      List.length_singleton]
    calc fromBytesBE l * 256 + b < (fromBytesBE l + 1) * 256 := by omega
      _ ≤ 256 ^ l.length * 256 := by
          have : fromBytesBE l + 1 ≤ 256 ^ l.length := hl
          exact Nat.mul_le_mul_right _ this
      _ = 256 ^ (l.length + 1) := by ring

theorem toBytesBE_fromBytesBE {bs : List Nat} (h : ∀ b ∈ bs, b < 256) :
    toBytesBE bs.length (fromBytesBE bs) = bs := by
  induction bs using List.reverseRecOn with
  | nil => simp [toBytesBE, fromBytesBE]
  | append_singleton l b ih =>
    have hb : b < 256 := h b (by simp)
    have hl : ∀ x ∈ l, x < 256 := fun x hx => h x (by simp [hx])
    have hfold : fromBytesBE (l ++ [b]) = fromBytesBE l * 256 + b := by
      simp [fromBytesBE_append]
    simp only [List.length_append, List.length_singleton, hfold, toBytesBE]
    have h1 : (fromBytesBE l * 256 + b) / 256 = fromBytesBE l := by omega
    have h2 : (fromBytesBE l * 256 + b) % 256 = b := by omega
    rw [h1, h2, ih hl]

theorem fromBytes_toBytesOpt {order : ByteOrder} {nb v : Nat} {bs : List Nat}
    (h : toBytesOpt order nb v = some bs) : fromBytes order bs = v := by
  unfold toBytesOpt at h
  by_cases hv : v < 256 ^ nb
  · simp only [hv, if_true] at h
    cases order with
    | big =>
      simp only [Option.some.injEq] at h
      subst h
      simp [fromBytes, fromBytesBE_toBytesBE hv]
    | little =>
      simp only [Option.some.injEq] at h
      subst h
      simp [fromBytes, fromBytesBE_toBytesBE hv]
  · simp [hv] at h

theorem toBytesOpt_length {order : ByteOrder} {nb v : Nat} {bs : List Nat}
    (h : toBytesOpt order nb v = some bs) : bs.length = nb := by
  unfold toBytesOpt at h
  by_cases hv : v < 256 ^ nb
  · simp only [hv, if_true] at h
    cases order <;> simp only [Option.some.injEq] at h <;> subst h <;>
      simp [toBytesBE_length]
  · simp [hv] at h

theorem toBytesOpt_lt {order : ByteOrder} {nb v : Nat} {bs : List Nat}
    (h : toBytesOpt order nb v = some bs) : ∀ b ∈ bs, b < 256 := by
  unfold toBytesOpt at h
  by_cases hv : v < 256 ^ nb
  · simp only [hv, if_true] at h
    cases order <;> simp only [Option.some.injEq] at h <;> subst h <;>
      intro b hb
    · exact toBytesBE_lt _ _ _ hb
    · exact toBytesBE_lt _ _ _ (List.mem_reverse.mp hb)
  · simp [hv] at h

theorem toBytesOpt_isSome {order : ByteOrder} {nb v : Nat} (h : v < 256 ^ nb) :
    toBytesOpt order nb v =
      some (match order with
        | .big => toBytesBE nb v
        | .little => (toBytesBE nb v).reverse) := by
  simp [toBytesOpt, h]

theorem pow_256_eq_two_pow (nb : Nat) : (256 : Nat) ^ nb = 2 ^ (8 * nb) := by
  rw [show (256 : Nat) = 2 ^ 8 by norm_num, ← pow_mul]

theorem sintFromBytes_sintToBytesOpt {order : ByteOrder} {nb : Nat} {v : Int}
    {bs : List Nat} (hnb : 0 < nb) (h : sintToBytesOpt order nb v = some bs) :
    sintFromBytes order bs = v := by
  unfold sintToBytesOpt at h
  have hc1 : ((2 ^ (8 * nb - 1) : Nat) : Int) = (2 : Int) ^ (8 * nb - 1) := by push_cast; ring
  have hc2 : ((2 ^ (8 * nb) : Nat) : Int) = (2 : Int) ^ (8 * nb) := by push_cast; ring
  have hpow : (2 : Int) ^ (8 * nb) = 2 ^ (8 * nb - 1) * 2 := by
    rw [← pow_succ]
    congr 1
    omega
  by_cases hr : -(2 ^ (8 * nb - 1) : Int) ≤ v ∧ v < (2 ^ (8 * nb - 1) : Int)
  · simp only [hr, and_self, if_true] at h
    have hlen : bs.length = nb := toBytesOpt_length h
    have hval := fromBytes_toBytesOpt h
    have hr1 := hr.1
    have hr2 := hr.2
    unfold sintFromBytes
    by_cases hv : 0 ≤ v
    · simp only [hv, if_true] at hval
      have hlt : v.toNat < 2 ^ (8 * nb - 1) := by omega
      rw [hlen, hval]
      simp only [hlt, if_true]
      omega
    · simp only [hv, if_false] at hval
      have hge : ¬ ((v + 2 ^ (8 * nb)).toNat < 2 ^ (8 * nb - 1)) := by omega
      rw [hlen, hval]
      simp only [hge, if_false]
      omega
  · simp [hr] at h

theorem pyFloor_eq_floor (q : ℚ) : pyFloor q = ⌊q⌋ := by
  rw [Rat.floor_def]
  rfl

theorem abs_pyRound_sub_le (q : ℚ) : |(pyRound q : ℚ) - q| ≤ 1 / 2 := by
  have h0 : (0 : ℚ) ≤ q - ⌊q⌋ := by
    have := Int.floor_le q
    linarith
  have h1 : q - ⌊q⌋ < 1 := by
    have := Int.lt_floor_add_one q
    linarith
  unfold pyRound
  rw [pyFloor_eq_floor]
  split_ifs <;> rw [abs_le] <;> push_cast <;> constructor <;> linarith

theorem pyRound_nonneg {q : ℚ} (h : 0 ≤ q) : 0 ≤ pyRound q := by
  have hf : (0 : Int) ≤ ⌊q⌋ := Int.floor_nonneg.mpr h
  unfold pyRound
  rw [pyFloor_eq_floor]
  split_ifs <;> omega

/-- C5: `SIntEncoder.decode` of the byte pair `0x18, 0xFC` under the BMP280
calibration field's default big-endian byte order yields 6396 (= 0x18FC),
not -1000; the value -1000 (= two's complement 0xFC18) is what a
little-endian interpretation of the same bytes yields, and it is what the
repository's own test `test_mocked_bmp280_calib_consts` expects for these
bytes (`dig_t3`). -/
theorem c5_sint_decode_big_endian_failing_input :
    bmpDigT3Field.byteOrder = ByteOrder.big ∧
    encoderDecode .sint [0x18, 0xFC] bmpDigT3Field = some (.num 6396) ∧
    encoderDecode .sint [0x18, 0xFC]
      { bmpDigT3Field with byteOrder := ByteOrder.little } = some (.num (-1000)) := by
  refine ⟨rfl, ?_, ?_⟩ <;> decide

/-- C8 counterexample: in the `src/air-quality` variant of the framework,
`_count_trailing_zeros(0)` returns 0 instead of raising, so constructing a
`Field` with `bit_mask = 0` succeeds there — the failure is not raised at
construction time in every variant. -/
theorem c8_zero_mask_counterexample :
    old_count_trailing_zeros 0 = 0 ∧
    old_mkField "f" [0] (some 0) .uint false =
      some { name := "f", byteIndex := [0], bitMask := some 0, encoder := .uint,
             byteOrder := .big, readOnly := false, shift := some 0 } := by
  constructor <;> decide

/-- C8 amended: in `src/sensors/i2c_base.py` a `Field` with `bit_mask = 0`
fails at construction (`_count_trailing_zeros` raises `ValueError`), for
every choice of the other arguments; in the `src/air-quality` variant the
construction succeeds with `_shift = 0` and the failure is deferred. -/
theorem c8_zero_mask_amended (name : String) (byteIndex : List Nat)
    (encoder : EncoderKind) (byteOrder : ByteOrder) (readOnly : Bool) :
    mkField name byteIndex (some 0) encoder byteOrder readOnly = none ∧
    (old_mkField name byteIndex (some 0) encoder readOnly).isSome = true := by
  constructor
  · simp [mkField, count_trailing_zeros]
  · simp [old_mkField]

/-- C8 amended, witness at concrete arguments. -/
theorem c8_zero_mask_amended_witness :
    mkField "f" [0] (some 0) .uint .big false = none ∧
    (old_mkField "f" [0] (some 0) .uint false).isSome = true :=
  c8_zero_mask_amended "f" [0] .uint .big false

theorem find?_map_upsert {β : Type} {m : List (String × β)} {k : String} {v : β}
    (hm : m.any (fun p => p.fst == k) = true) :
    (m.map (fun p => if p.fst == k then (k, v) else p)).find?
      (fun p => p.fst == k) = some (k, v) := by
  induction m with
  | nil => simp at hm
  | cons a as ih =>
    cases ha : (a.fst == k) with
    | true => simp [ha, List.find?]
    | false =>
      simp only [List.any_cons, ha, Bool.false_or] at hm
      simp only [List.map_cons, ha, Bool.false_eq_true, if_false]
      rw [List.find?_cons_of_neg _ (by simp [ha])]
      exact ih hm

theorem find?_append_upsert {β : Type} {m : List (String × β)} {k : String} {v : β}
    (hm : m.any (fun p => p.fst == k) = false) :
    (m ++ [(k, v)]).find? (fun p => p.fst == k) = some (k, v) := by
  induction m with
  | nil => simp [List.find?]
  | cons a as ih =>
    simp only [List.any_cons, Bool.or_eq_false_iff] at hm
    simp only [List.cons_append]
    rw [List.find?_cons_of_neg _ (by simp [hm.1])]
    exact ih hm.2

theorem find?_dictUpsert_self {β : Type} (m : List (String × β)) (k : String) (v : β) :
    (dictUpsert m k v).find? (fun p => p.fst == k) = some (k, v) := by
  unfold dictUpsert
  cases h : m.any (fun p => p.fst == k) with
  | true =>
    simp only [h, if_true]
    exact find?_map_upsert h
  | false =>
    simp only [h, Bool.false_eq_true, if_false]
    exact find?_append_upsert h

theorem buildDict_append_singleton {β : Type} (key : β → String) (xs : List β) (x : β) :
    buildDict key (xs ++ [x]) = dictUpsert (buildDict key xs) (key x) x := by
  simp [buildDict, List.foldl_append]

/-- C9 counterexample: `Register` construction with two fields that share the
name "dup" succeeds and silently keeps only the later field, and `Device`
construction with two registers that share the name "reg" succeeds and
silently keeps only the later register — no duplicate-name check fails. -/
theorem c9_duplicate_names_counterexample :
    mkRegister "r" 0
        [(mkField "dup" [0] (some 0xF0) .uint .big false).getD default,
         (mkField "dup" [0] (some 0x0F) .uint .big false).getD default]
        8 false false =
      some { name := "r", address := 0,
             fields := [("dup", (mkField "dup" [0] (some 0x0F) .uint .big false).getD default)],
             nBits := 8, readOnly := false, nonVolatile := false } ∧
    mkDevice "d" 0x58 [(0, 0x76)]
        [(mkRegister "reg" 0xA0 [] 8 false false).getD ⟨"", 0, [], 0, false, false⟩,
         (mkRegister "reg" 0xB0 [] 8 false false).getD ⟨"", 0, [], 0, false, false⟩]
        .big =
      some { name := "d", chipId := 0x58, i2cAddresses := [(0, 0x76)],
             registers :=
               [("reg", (mkRegister "reg" 0xB0 [] 8 false false).getD ⟨"", 0, [], 0, false, false⟩)],
             byteOrder := .big } := by
  constructor <;> decide

/-- C9 amended: `Register.__init__` and `Device.__init__` perform no
uniqueness check at all; construction always succeeds, and when several
fields (registers) share a name the name-keyed dict silently keeps the last
one. -/
theorem c9_duplicate_names_amended :
    (∀ (n : String) (a : Nat) (fs : List Field) (f : Field) (nb : Nat) (ro nv : Bool),
      ∃ r, mkRegister n a (fs ++ [f]) nb ro nv = some r ∧ r.getField f.name = some f) ∧
    (∀ (n : String) (cid : Nat) (addrs : List (Nat × Nat)) (rs : List Register)
      (rg : Register) (bo : ByteOrder),
      ∃ d, mkDevice n cid addrs (rs ++ [rg]) bo = some d ∧
        d.getRegister rg.name = some rg) := by
  constructor
  · intro n a fs f nb ro nv
    refine ⟨_, rfl, ?_⟩
    unfold Register.getField
    simp only [buildDict_append_singleton]
    rw [find?_dictUpsert_self]
    rfl
  · intro n cid addrs rs rg bo
    refine ⟨_, rfl, ?_⟩
    unfold Device.getRegister
    simp only [buildDict_append_singleton]
    rw [find?_dictUpsert_self]
    rfl

/-- C2, evaluated at the failing input: the BMP280 `chip_id` register is
non-volatile; after a first successful `read()` the cache is populated
(`has_been_read` is true), yet a second `read(ignore_cache=False)` still
performs the transport read (the returned flag is `true`), because the body
of the cache guard in `BaseRegisterAPI.read` is `pass`. -/
theorem c2_nonvolatile_reread_hits_transport :
    bmpChipIdReg.nonVolatile = true ∧
    regRead bmpChipIdReg (initCache bmpChipIdReg) [0x58] false =
      some ([("id", some (.num 0x58))], true) ∧
    (([("id", some (Val.num 0x58))] : Cache).any fun p => p.snd.isSome) = true ∧
    regRead bmpChipIdReg [("id", some (.num 0x58))] [0x58] false =
      some ([("id", some (.num 0x58))], true) := by
  refine ⟨rfl, ?_, rfl, ?_⟩ <;> decide

/-- C6: with a bit mask set, `_decode_mask` repacks
`(int_value AND mask) >> shift` into a byte string of the same length as
the input, interpreting and repacking in the field's byte order; in
particular with mask 0b11110000 the byte 0b00111100 decodes to 0b00000011,
and `_encode_mask` maps 0b00000011 back to 0b00110000. -/
theorem c6_decode_mask_characterization :
    (∀ (f : Field) (m : Nat) (bs out : List Nat),
        f.bitMask = some m → f.decode_mask bs = some out →
        out.length = bs.length ∧
        fromBytes f.byteOrder out =
          (fromBytes f.byteOrder bs &&& m) >>> f.shift.getD 0) ∧
    c6Field.decode_mask [0b00111100] = some [0b00000011] ∧
    c6Field.encode_mask [0b00000011] = some [0b00110000] := by
  refine ⟨?_, by decide, by decide⟩
  intro f m bs out hm hd
  unfold Field.decode_mask at hd
  rw [hm] at hd
  exact ⟨toBytesOpt_length hd, fromBytes_toBytesOpt hd⟩

/-- C6 witness: the characterization applied to the concrete mask example. -/
theorem c6_decode_mask_characterization_witness :
    ([0b00000011] : List Nat).length = ([0b00111100] : List Nat).length ∧
    fromBytes c6Field.byteOrder [0b00000011] =
      (fromBytes c6Field.byteOrder [0b00111100] &&& 0b11110000) >>> c6Field.shift.getD 0 :=
  c6_decode_mask_characterization.1 c6Field 0b11110000 [0b00111100] [0b00000011]
    (by decide) (by decide)

/-- C7: for the BMP280 mode lookup table {"sleep": 0b00, "forced": 0b10,
"normal": 0b11}, encode("forced") yields the byte 0b10, decode(0b11) yields
"normal", and decoding any byte string whose integer value matches no table
entry raises `ValueError` (`none`) instead of returning a default. -/
theorem c7_lookup_table_codec :
    encoderEncode (.lookup bmpModeTable) (.str "forced") bmpModeField = some [0b10] ∧
    encoderDecode (.lookup bmpModeTable) [0b11] bmpModeField = some (.str "normal") ∧
    ∀ bs : List Nat,
      fromBytes bmpModeField.byteOrder bs ≠ 0b00 →
      fromBytes bmpModeField.byteOrder bs ≠ 0b10 →
      fromBytes bmpModeField.byteOrder bs ≠ 0b11 →
      encoderDecode (.lookup bmpModeTable) bs bmpModeField = none := by
  refine ⟨by decide, by decide, ?_⟩
  intro bs h0 h2 h3
  have e0 : ((0 : Nat) == fromBytes bmpModeField.byteOrder bs) = false := by
    simp [Ne.symm h0]
  have e2 : ((2 : Nat) == fromBytes bmpModeField.byteOrder bs) = false := by
    simp [Ne.symm h2]
  have e3 : ((3 : Nat) == fromBytes bmpModeField.byteOrder bs) = false := by
    simp [Ne.symm h3]
  simp [encoderDecode, bmpModeTable, List.find?, e0, e2, e3]

/-- C7 witness: decoding the unused code 0b01 fails. -/
theorem c7_lookup_table_codec_witness :
    encoderDecode (.lookup bmpModeTable) [0b01] bmpModeField = none :=
  c7_lookup_table_codec.2.2 [0b01] (by decide) (by decide) (by decide)

theorem mapOptM_mem {α β : Type} {f : α → Option β} :
    ∀ {l : List α} {res : List β}, mapOptM f l = some res →
      ∀ b ∈ res, ∃ a ∈ l, f a = some b := by
  intro l
  induction l with
  | nil =>
    intro res h b hb
    simp only [mapOptM, Option.some.injEq] at h
    subst h
    simp at hb
  | cons a as ih =>
    intro res h b hb
    simp only [mapOptM] at h
    rcases Option.bind_eq_some.mp h with ⟨b0, hb0, hmap⟩
    rcases Option.map_eq_some'.mp hmap with ⟨bs, hbs, rfl⟩
    rcases List.mem_cons.mp hb with rfl | hb2
    · exact ⟨a, by simp, hb0⟩
    · rcases ih hbs b hb2 with ⟨a2, ha2, hfa2⟩
      exact ⟨a2, by simp [ha2], hfa2⟩

theorem mapOptM_congr {α β : Type} {f g : α → Option β} :
    ∀ {l : List α}, (∀ a ∈ l, f a = g a) → mapOptM f l = mapOptM g l := by
  intro l
  induction l with
  | nil => intro _; rfl
  | cons a as ih =>
    intro h
    simp only [mapOptM, h a (by simp), ih (fun x hx => h x (by simp [hx]))]

theorem mapOptM_perm {α β : Type} (f : α → Option β) {l l2 : List α}
    (h : l.Perm l2) :
    (mapOptM f l = none ∧ mapOptM f l2 = none) ∨
    ∃ ps ps2, mapOptM f l = some ps ∧ mapOptM f l2 = some ps2 ∧ ps.Perm ps2 := by
  induction h with
  | nil => exact Or.inr ⟨[], [], rfl, rfl, .nil⟩
  | cons a hperm ih =>
    cases hfa : f a with
    | none => left; constructor <;> simp [mapOptM, hfa]
    | some b =>
      rcases ih with ⟨h1, h2⟩ | ⟨ps, ps2, h1, h2, hp⟩
      · left; constructor <;> simp [mapOptM, hfa, h1, h2]
      · right
        exact ⟨b :: ps, b :: ps2, by simp [mapOptM, hfa, h1],
          by simp [mapOptM, hfa, h2], hp.cons b⟩
  | swap a b l =>
    cases hfa : f a with
    | none => left; constructor <;> simp [mapOptM, hfa]
    | some xa =>
      cases hfb : f b with
      | none => left; constructor <;> simp [mapOptM, hfa, hfb]
      | some xb =>
        cases hml : mapOptM f l with
        | none => left; constructor <;> simp [mapOptM, hfa, hfb, hml]
        | some ps =>
          right
          exact ⟨xb :: xa :: ps, xa :: xb :: ps,
            by simp [mapOptM, hfa, hfb, hml],
            by simp [mapOptM, hfa, hfb, hml], List.Perm.swap xa xb ps⟩
  | trans h1 h2 ih1 ih2 =>
    rcases ih1 with ⟨a1, a2⟩ | ⟨ps, ps2, e1, e2, hp⟩
    · rcases ih2 with ⟨b1, b2⟩ | ⟨qs, qs2, e3, e4, hq⟩
      · exact Or.inl ⟨a1, b2⟩
      · rw [a2] at e3
        cases e3
    · rcases ih2 with ⟨b1, b2⟩ | ⟨qs, qs2, e3, e4, hq⟩
      · rw [e2] at b1
        cases b1
      · right
        rw [e2] at e3
        injection e3 with e5
        exact ⟨ps, qs2, e1, e4, hp.trans (e5 ▸ hq)⟩

theorem sintToBytesOpt_length {order : ByteOrder} {nb : Nat} {v : Int}
    {bs : List Nat} (h : sintToBytesOpt order nb v = some bs) : bs.length = nb := by
  unfold sintToBytesOpt at h
  split at h
  · exact toBytesOpt_length h
  · simp at h

theorem sintToBytesOpt_lt {order : ByteOrder} {nb : Nat} {v : Int}
    {bs : List Nat} (h : sintToBytesOpt order nb v = some bs) :
    ∀ b ∈ bs, b < 256 := by
  unfold sintToBytesOpt at h
  split at h
  · exact toBytesOpt_lt h
  · simp at h

theorem encoderEncode_length_lt {e : EncoderKind} {v : Val} {f : Field}
    {frag : List Nat} (h : encoderEncode e v f = some frag) :
    frag.length = f.nBytes ∧ ∀ b ∈ frag, b < 256 := by
  cases e with
  | uint =>
    cases v with
    | num q =>
      simp only [encoderEncode] at h
      split at h
      · exact ⟨toBytesOpt_length h, toBytesOpt_lt h⟩
      · simp at h
    | str s => simp [encoderEncode] at h
  | sint =>
    cases v with
    | num q =>
      simp only [encoderEncode] at h
      split at h
      · exact ⟨sintToBytesOpt_length h, sintToBytesOpt_lt h⟩
      · simp at h
    | str s => simp [encoderEncode] at h
  | lookup t =>
    simp only [encoderEncode] at h
    rcases Option.bind_eq_some.mp h with ⟨code, _, h2⟩
    exact ⟨sintToBytesOpt_length h2, sintToBytesOpt_lt h2⟩
  | humidityFP =>
    cases v with
    | num q =>
      simp only [encoderEncode] at h
      split at h
      · exact ⟨toBytesOpt_length h, toBytesOpt_lt h⟩
      · simp at h
    | str s => simp [encoderEncode] at h
  | temperatureFP =>
    cases v with
    | num q =>
      simp only [encoderEncode] at h
      exact ⟨toBytesOpt_length h, toBytesOpt_lt h⟩
    | str s => simp [encoderEncode] at h

theorem Field.encode_length_lt {f : Field} {v : Val} {frag : List Nat}
    (h : f.encode v = some frag) :
    frag.length = f.nBytes ∧ ∀ b ∈ frag, b < 256 := by
  unfold Field.encode at h
  rcases Option.bind_eq_some.mp h with ⟨mid, hmid, hmask⟩
  unfold Field.encode_mask at hmask
  cases hbm : f.bitMask with
  | none =>
    simp only [hbm] at hmask
    injection hmask with hfrag
    subst hfrag
    exact encoderEncode_length_lt hmid
  | some m =>
    simp only [hbm] at hmask
    exact ⟨toBytesOpt_length hmask, toBytesOpt_lt hmask⟩

theorem encodeOne_some {r : Register} {nv : String × Val} {p : List Nat × List Nat}
    (h : encodeOne r nv = some p) :
    ∃ f frag, r.getField nv.fst = some f ∧ p = (f.byteIndex, frag) ∧
      f.encode nv.snd = some frag := by
  unfold encodeOne at h
  rcases Option.bind_eq_some.mp h with ⟨f, hf, hmap⟩
  rcases Option.map_eq_some'.mp hmap with ⟨frag, hfrag, rfl⟩
  exact ⟨f, frag, hf, rfl, hfrag⟩

theorem mergeGroup_eq_spec {key : List Nat} {frags : List (List Nat)}
    (h : ∀ fr ∈ frags, fr.length = key.getLastD 0 - key.headD 0 + 1 ∧
      ∀ b ∈ fr, b < 256) :
    mergeGroup key frags = specMergeGroup key frags := by
  match frags with
  | [] => rfl
  | [a] =>
    have ha := h a (by simp)
    show some a = specMergeGroup key [a]
    unfold specMergeGroup
    simp only [List.foldl_cons, List.foldl_nil, Nat.zero_or]
    rw [← ha.1]
    rw [toBytesOpt_isSome (by simpa using fromBytesBE_lt a ha.2)]
    rw [toBytesBE_fromBytesBE ha.2]
  | a :: b :: t => rfl

theorem lexLeB_total : ∀ a b : List Nat, lexLeB a b = true ∨ lexLeB b a = true := by
  intro a
  induction a with
  | nil => intro b; left; rfl
  | cons x xs ih =>
    intro b
    cases b with
    | nil => right; rfl
    | cons y ys =>
      rcases Nat.lt_trichotomy x y with hlt | heq | hgt
      · left
        simp [lexLeB, hlt]
      · subst heq
        rcases ih ys with h | h
        · left
          simp [lexLeB, h]
        · right
          simp [lexLeB, h]
      · right
        simp [lexLeB, hgt]

theorem lexLeB_antisymm : ∀ a b : List Nat,
    lexLeB a b = true → lexLeB b a = true → a = b := by
  intro a
  induction a with
  | nil =>
    intro b _ hba
    cases b with
    | nil => rfl
    | cons y ys => simp [lexLeB] at hba
  | cons x xs ih =>
    intro b hab hba
    cases b with
    | nil => simp [lexLeB] at hab
    | cons y ys =>
      simp only [lexLeB, Bool.or_eq_true, Bool.and_eq_true, decide_eq_true_eq,
        beq_iff_eq] at hab hba
      rcases hab with hlt | ⟨heq, hrest⟩
      · rcases hba with hlt2 | ⟨heq2, _⟩ <;> omega
      · subst heq
        rcases hba with hlt2 | ⟨_, hrest2⟩
        · omega
        · rw [ih ys hrest hrest2]

theorem lexLeB_trans : ∀ a b c : List Nat,
    lexLeB a b = true → lexLeB b c = true → lexLeB a c = true := by
  intro a
  induction a with
  | nil => intro b c _ _; rfl
  | cons x xs ih =>
    intro b c hab hbc
    cases b with
    | nil => simp [lexLeB] at hab
    | cons y ys =>
      cases c with
      | nil => simp [lexLeB] at hbc
      | cons z zs =>
        simp only [lexLeB, Bool.or_eq_true, Bool.and_eq_true, decide_eq_true_eq,
          beq_iff_eq] at hab hbc ⊢
        rcases hab with hlt | ⟨heq, hrest⟩
        · rcases hbc with hlt2 | ⟨heq2, _⟩
          · left; omega
          · left; omega
        · subst heq
          rcases hbc with hlt2 | ⟨heq2, hrest2⟩
          · left; exact hlt2
          · subst heq2
            right
            exact ⟨rfl, ih ys zs hrest hrest2⟩

instance : IsTotal (List Nat) lexLe := ⟨lexLeB_total⟩

instance : IsTrans (List Nat) lexLe := ⟨lexLeB_trans⟩

instance : IsAntisymm (List Nat) lexLe := ⟨lexLeB_antisymm⟩

theorem sortKeys_eq_of_perm {ks ks2 : List (List Nat)} (h : ks.Perm ks2) :
    sortKeys ks = sortKeys ks2 :=
  List.eq_of_perm_of_sorted
    ((List.perm_insertionSort lexLe ks).trans
      (h.trans (List.perm_insertionSort lexLe ks2).symm))
    (List.sorted_insertionSort lexLe ks)
    (List.sorted_insertionSort lexLe ks2)

theorem mem_firstDedup_aux (ks : List (List Nat)) :
    ∀ (acc : List (List Nat)) (x : List Nat),
      x ∈ ks.foldl (fun acc k => if k ∈ acc then acc else acc ++ [k]) acc ↔
        x ∈ acc ∨ x ∈ ks := by
  induction ks with
  | nil => simp
  | cons k t ih =>
    intro acc x
    simp only [List.foldl_cons, ih, List.mem_cons]
    by_cases hk : k ∈ acc
    · simp only [hk, if_true]
      constructor
      · tauto
      · rintro (h | rfl | h) <;> tauto
    · simp only [hk, if_false, List.mem_append, List.mem_singleton]
      tauto

theorem mem_firstDedup {ks : List (List Nat)} {x : List Nat} :
    x ∈ firstDedup ks ↔ x ∈ ks := by
  unfold firstDedup
  rw [mem_firstDedup_aux]
  simp

theorem firstDedup_nodup_aux (ks : List (List Nat)) :
    ∀ acc : List (List Nat), acc.Nodup →
      (ks.foldl (fun acc k => if k ∈ acc then acc else acc ++ [k]) acc).Nodup := by
  induction ks with
  | nil => intro acc h; simpa using h
  | cons k t ih =>
    intro acc h
    simp only [List.foldl_cons]
    by_cases hk : k ∈ acc
    · simp only [hk, if_true]
      exact ih acc h
    · simp only [hk, if_false]
      refine ih _ ?_
      simp [List.nodup_append, h, hk]

theorem firstDedup_nodup (ks : List (List Nat)) : (firstDedup ks).Nodup :=
  firstDedup_nodup_aux ks [] List.nodup_nil

theorem firstDedup_perm {ks ks2 : List (List Nat)} (h : ks.Perm ks2) :
    (firstDedup ks).Perm (firstDedup ks2) := by
  rw [List.perm_ext_iff_of_nodup (firstDedup_nodup ks) (firstDedup_nodup ks2)]
  intro x
  rw [mem_firstDedup, mem_firstDedup]
  exact ⟨fun hx => h.mem_iff.mp hx, fun hx => h.mem_iff.mpr hx⟩

theorem foldl_or_perm {l l2 : List (List Nat)} (h : l.Perm l2) :
    ∀ acc : Nat,
      l.foldl (fun acc bs => acc ||| fromBytesBE bs) acc =
        l2.foldl (fun acc bs => acc ||| fromBytesBE bs) acc := by
  induction h with
  | nil => intro _; rfl
  | cons x _ ih =>
    intro acc
    simp only [List.foldl_cons]
    exact ih _
  | swap x y l =>
    intro acc
    simp only [List.foldl_cons]
    rw [Nat.lor_assoc, Nat.lor_assoc, Nat.lor_comm (fromBytesBE y)]
  | trans _ _ ih1 ih2 =>
    intro acc
    rw [ih1, ih2]

theorem mergeGroup_perm {k : List Nat} {fr fr2 : List (List Nat)}
    (h : fr.Perm fr2) : mergeGroup k fr = mergeGroup k fr2 := by
  have hl := h.length_eq
  match fr, fr2 with
  | [], [] => rfl
  | [], _ :: _ => simp at hl
  | _ :: _, [] => simp at hl
  | [a], [b] =>
    have h2 := List.singleton_perm.mp h
    simp only [List.cons.injEq, and_true] at h2
    rw [h2]
  | [a], b :: c :: t => simp at hl
  | a :: b :: t, [c] => simp at hl
  | a :: b :: t, c :: d :: t2 =>
    show toBytesOpt .big _ _ = toBytesOpt .big _ _
    rw [foldl_or_perm h]

/-- C1: for every register and every list of (field name, value) pairs,
`_field_values_to_raw_bytes` agrees with the spec's description — encode each
value via its field, group fragments by `byte_index`, merge every group by
bitwise OR of the already-shifted fragments with no further alignment, sort
the groups by key and concatenate; in particular for fields f1
(bit_mask 0xF0) and f2 (bit_mask 0x0F) with values {f1: 0b0001, f2: 0b1000}
the result is the single byte 0b00011000. -/
theorem c1_field_values_merge_sort_concat :
    (∀ (r : Register) (fvs : List (String × Val)),
      field_values_to_raw_bytes r fvs = spec_field_values_to_raw_bytes r fvs) ∧
    field_values_to_raw_bytes c1Reg [("f1", .num 0b0001), ("f2", .num 0b1000)] =
      some [0b00011000] := by
  refine ⟨?_, by decide⟩
  intro r fvs
  unfold field_values_to_raw_bytes spec_field_values_to_raw_bytes
  cases hm : mapOptM (encodeOne r) fvs with
  | none => rfl
  | some pairs =>
    rw [Option.some_bind, Option.some_bind]
    have hcongr : ∀ k ∈ sortKeys (firstDedup (pairs.map Prod.fst)),
        mergeGroup k ((pairs.filter (fun p => p.fst == k)).map Prod.snd) =
          specMergeGroup k ((pairs.filter (fun p => p.fst == k)).map Prod.snd) := by
      intro k _
      apply mergeGroup_eq_spec
      intro fr hfr
      rcases List.mem_map.mp hfr with ⟨p, hpmem, rfl⟩
      have hpfilter := List.mem_filter.mp hpmem
      have hkp : p.fst = k := by simpa using hpfilter.2
      rcases mapOptM_mem hm p hpfilter.1 with ⟨nv, _, henc⟩
      rcases encodeOne_some henc with ⟨f, frag, _, hpair, hencf⟩
      have h1 := Field.encode_length_lt hencf
      subst hpair
      refine ⟨?_, h1.2⟩
      rw [← hkp]
      exact h1.1
    rw [mapOptM_congr (fun k hk => hcongr k hk)]

/-- C4: `_field_values_to_raw_bytes` gives the same bytes for every
permutation of the (name, value) pairs in the input map — grouping, the
commutative OR-merge and the final key sort make the result order
independent. -/
theorem c4_field_values_perm_invariant (r : Register)
    {fvs fvs2 : List (String × Val)} (h : fvs.Perm fvs2) :
    field_values_to_raw_bytes r fvs = field_values_to_raw_bytes r fvs2 := by
  unfold field_values_to_raw_bytes
  rcases mapOptM_perm (encodeOne r) h with ⟨h1, h2⟩ | ⟨ps, ps2, h1, h2, hp⟩
  · rw [h1, h2]
  · rw [h1, h2, Option.some_bind, Option.some_bind]
    have hkeys : sortKeys (firstDedup (ps.map Prod.fst)) =
        sortKeys (firstDedup (ps2.map Prod.fst)) :=
      sortKeys_eq_of_perm (firstDedup_perm (hp.map Prod.fst))
    rw [hkeys]
    rw [mapOptM_congr (fun k _ =>
      mergeGroup_perm ((hp.filter (fun p => p.fst == k)).map Prod.snd))]

/-- C4 witness: the two insertion orders of the shared-byte fields f1 and f2
produce the same raw bytes. -/
theorem c4_field_values_perm_invariant_witness :
    field_values_to_raw_bytes c1Reg [("f1", .num 1), ("f2", .num 8)] =
      field_values_to_raw_bytes c1Reg [("f2", .num 8), ("f1", .num 1)] :=
  c4_field_values_perm_invariant c1Reg (by decide)

theorem sintToBytesOpt_isSome {o : ByteOrder} {nb : Nat} {v : Int}
    (hnb : 0 < nb) (h1 : -(2 ^ (8 * nb - 1) : Int) ≤ v)
    (h2 : v < (2 ^ (8 * nb - 1) : Int)) :
    ∃ bs, sintToBytesOpt o nb v = some bs := by
  unfold sintToBytesOpt
  rw [if_pos ⟨h1, h2⟩]
  have hc1 : ((2 ^ (8 * nb - 1) : Nat) : Int) = (2 : Int) ^ (8 * nb - 1) := by
    push_cast; ring
  have hc2 : ((256 ^ nb : Nat) : Int) = (2 : Int) ^ (8 * nb) := by
    rw [pow_256_eq_two_pow]; push_cast; ring
  have hpow : (2 : Int) ^ (8 * nb) = 2 ^ (8 * nb - 1) * 2 := by
    rw [← pow_succ]
    congr 1
    omega
  have hw : (if 0 ≤ v then v.toNat else (v + 2 ^ (8 * nb)).toNat) < 256 ^ nb := by
    by_cases hv : 0 ≤ v <;> simp only [hv, if_true, if_false] <;> omega
  exact ⟨_, toBytesOpt_isSome hw⟩

theorem find?_proj_of_nodup {β γ : Type} [BEq γ] [LawfulBEq γ] {t : List β}
    {g : β → γ} {x : β} (hn : (t.map g).Nodup) (hx : x ∈ t) :
    t.find? (fun y => g y == g x) = some x := by
  induction t with
  | nil => simp at hx
  | cons a as ih =>
    rcases List.mem_cons.mp hx with rfl | hx2
    · simp [List.find?]
    · simp only [List.map_cons, List.nodup_cons] at hn
      have hfalse : (g a == g x) = false := by
        simp only [beq_eq_false_iff_ne, ne_eq]
        intro he
        exact hn.1 (he ▸ List.mem_map_of_mem g hx2)
      simp only [List.find?, hfalse]
      exact ih hn.2 hx2

theorem rat_intCast_of_den_one {q : ℚ} (hden : q.den = 1) : ((q.num : ℚ)) = q :=
  Rat.coe_int_num_of_den_eq_one hden

/-- C3: encode-decode round trips for every concrete encoder variant.
`UIntEncoder` and `SIntEncoder` recover the value exactly on their
representable ranges; a `LookupTable` whose keys and codes are duplicate-free
recovers every key whose code fits the signed byte width; the CCS811
fixed-point humidity and temperature encoders recover the value to within
1/512 on their valid domains (humidity with a non-negative rounded raw
value, temperature from -25 upward, both fitting the field's byte width). -/
theorem c3_encoder_roundtrip :
    (∀ (f : Field) (q : ℚ), q.den = 1 → 0 ≤ q.num →
      q.num < (256 ^ f.nBytes : Nat) →
      (encoderEncode .uint (.num q) f).bind (fun bs => encoderDecode .uint bs f) =
        some (.num q)) ∧
    (∀ (f : Field) (q : ℚ), q.den = 1 → 0 < f.nBytes →
      -(2 ^ (8 * f.nBytes - 1) : Int) ≤ q.num →
      q.num < (2 ^ (8 * f.nBytes - 1) : Int) →
      (encoderEncode .sint (.num q) f).bind (fun bs => encoderDecode .sint bs f) =
        some (.num q)) ∧
    (∀ (f : Field) (t : List (Val × Nat)) (k : Val) (code : Nat),
      (t.map Prod.fst).Nodup → (t.map Prod.snd).Nodup → (k, code) ∈ t →
      0 < f.nBytes → (code : Int) < (2 ^ (8 * f.nBytes - 1) : Int) →
      (encoderEncode (.lookup t) k f).bind
        (fun bs => encoderDecode (.lookup t) bs f) = some k) ∧
    (∀ (f : Field) (q : ℚ), 0 ≤ pyRound (q * 512) →
      (pyRound (q * 512)).toNat < 256 ^ f.nBytes →
      ∃ q2 : ℚ,
        (encoderEncode .humidityFP (.num q) f).bind
          (fun bs => encoderDecode .humidityFP bs f) = some (.num q2) ∧
        |q2 - q| ≤ 1 / 512) ∧
    (∀ (f : Field) (q : ℚ), -25 ≤ q →
      (pyRound ((q + 25) * 512)).toNat < 256 ^ f.nBytes →
      ∃ q2 : ℚ,
        (encoderEncode .temperatureFP (.num q) f).bind
          (fun bs => encoderDecode .temperatureFP bs f) = some (.num q2) ∧
        |q2 - q| ≤ 1 / 512) := by
  refine ⟨?_, ?_, ?_, ?_, ?_⟩
  · -- UIntEncoder
    intro f q hden hnum hlt
    simp only [encoderEncode]
    rw [if_pos ⟨hden, hnum⟩]
    have hfit : q.num.toNat < 256 ^ f.nBytes := by
      have hc : ((256 ^ f.nBytes : Nat) : Int) = (256 ^ f.nBytes : Nat) := rfl
      omega
    cases hto : toBytesOpt f.byteOrder f.nBytes q.num.toNat with
    | none => rw [toBytesOpt_isSome hfit] at hto; cases hto
    | some bs =>
      rw [Option.some_bind]
      simp only [encoderDecode, Option.some.injEq, Val.num.injEq]
      rw [fromBytes_toBytesOpt hto]
      rw [show ((q.num.toNat : ℚ)) = ((q.num : ℚ)) by
        rw [← Int.toNat_of_nonneg hnum]; push_cast; rw [Int.toNat_of_nonneg hnum]]
      exact rat_intCast_of_den_one hden
  · -- SIntEncoder
    intro f q hden hnb h1 h2
    simp only [encoderEncode]
    rw [if_pos hden]
    rcases sintToBytesOpt_isSome (o := f.byteOrder) hnb h1 h2 with ⟨bs, hto⟩
    rw [hto, Option.some_bind]
    simp only [encoderDecode, Option.some.injEq, Val.num.injEq]
    rw [sintFromBytes_sintToBytesOpt hnb hto]
    exact rat_intCast_of_den_one hden
  · -- LookupTable
    intro f t k code hkn hvn hmem hnb hcode
    simp only [encoderEncode]
    have hfind : t.find? (fun p => p.fst == k) = some (k, code) := by
      have := find?_proj_of_nodup (g := Prod.fst) hkn hmem
      simpa using this
    rw [hfind]
    simp only [Option.map_some', Option.some_bind]
    have hge : -(2 ^ (8 * f.nBytes - 1) : Int) ≤ (code : Int) := by
      have hp : (0 : Int) ≤ 2 ^ (8 * f.nBytes - 1) := by positivity
      omega
    rcases sintToBytesOpt_isSome (o := f.byteOrder) hnb hge hcode with ⟨bs, hto⟩
    rw [hto, Option.some_bind]
    simp only [encoderDecode]
    have hfrom : fromBytes f.byteOrder bs = code := by
      unfold sintToBytesOpt at hto
      rw [if_pos ⟨hge, hcode⟩] at hto
      simp only [Int.ofNat_nonneg, if_true, Int.toNat_natCast] at hto
      exact fromBytes_toBytesOpt hto
    rw [hfrom]
    have hfind2 : t.find? (fun p => p.snd == code) = some (k, code) := by
      have := find?_proj_of_nodup (g := Prod.snd) hvn hmem
      simpa using this
    rw [hfind2]
    rfl
  · -- HumidityFixedPoint
    intro f q h0 hfit
    simp only [encoderEncode]
    rw [if_pos h0]
    cases hto : toBytesOpt f.byteOrder f.nBytes (pyRound (q * 512)).toNat with
    | none => rw [toBytesOpt_isSome hfit] at hto; cases hto
    | some bs =>
      rw [Option.some_bind]
      refine ⟨(((pyRound (q * 512)).toNat : ℚ)) / 512, ?_, ?_⟩
      · simp only [encoderDecode, Option.some.injEq, Val.num.injEq]
        rw [fromBytes_toBytesOpt hto]
      · have hcast : (((pyRound (q * 512)).toNat : ℚ)) = ((pyRound (q * 512) : ℚ)) := by
          rw [← Int.toNat_of_nonneg h0]
          push_cast
          rw [Int.toNat_of_nonneg h0]
        rw [hcast]
        have habs := abs_pyRound_sub_le (q * 512)
        rw [abs_le] at habs ⊢
        constructor <;> [linarith [habs.1]; linarith [habs.2]]
  · -- TemperatureFixedPoint
    intro f q h25 hfit
    have hq0 : (0 : ℚ) ≤ (q + 25) * 512 := by nlinarith
    have h0 : 0 ≤ pyRound ((q + 25) * 512) := pyRound_nonneg hq0
    have hmax : max (pyRound ((q + 25) * 512)) 0 = pyRound ((q + 25) * 512) :=
      max_eq_left h0
    simp only [encoderEncode, hmax]
    cases hto : toBytesOpt f.byteOrder f.nBytes (pyRound ((q + 25) * 512)).toNat with
    | none => rw [toBytesOpt_isSome hfit] at hto; cases hto
    | some bs =>
      rw [Option.some_bind]
      refine ⟨(((pyRound ((q + 25) * 512)).toNat : ℚ)) / 512 - 25, ?_, ?_⟩
      · simp only [encoderDecode, Option.some.injEq, Val.num.injEq]
        rw [fromBytes_toBytesOpt hto]
      · have hcast : (((pyRound ((q + 25) * 512)).toNat : ℚ)) =
            ((pyRound ((q + 25) * 512) : ℚ)) := by
          rw [← Int.toNat_of_nonneg h0]
          push_cast
          rw [Int.toNat_of_nonneg h0]
        rw [hcast]
        have habs := abs_pyRound_sub_le ((q + 25) * 512)
        rw [abs_le] at habs ⊢
        constructor <;> [linarith [habs.1]; linarith [habs.2]]

/-- C3 witness: the round trips at concrete inputs — `UIntEncoder` at 5,
`SIntEncoder` at -1000 on the 2-byte `dig_t3` field, the BMP280 mode lookup
table at "forced", and the CCS811 fixed-point encoders at 50 %RH and 25 °C
on 2-byte fields. -/
theorem c3_encoder_roundtrip_witness :
    ((encoderEncode .uint (.num 5) c6Field).bind
      (fun bs => encoderDecode .uint bs c6Field) = some (.num 5)) ∧
    ((encoderEncode .sint (.num (-1000)) bmpDigT3Field).bind
      (fun bs => encoderDecode .sint bs bmpDigT3Field) = some (.num (-1000))) ∧
    ((encoderEncode (.lookup bmpModeTable) (.str "forced") bmpModeField).bind
      (fun bs => encoderDecode (.lookup bmpModeTable) bs bmpModeField) =
        some (.str "forced")) ∧
    (∃ q2 : ℚ,
      (encoderEncode .humidityFP (.num 50)
          ((mkField "humidity" [0, 1] none .humidityFP .big false).getD default)).bind
        (fun bs => encoderDecode .humidityFP bs
          ((mkField "humidity" [0, 1] none .humidityFP .big false).getD default)) =
        some (.num q2) ∧ |q2 - 50| ≤ 1 / 512) ∧
    (∃ q2 : ℚ,
      (encoderEncode .temperatureFP (.num 25)
          ((mkField "temperature" [2, 3] none .temperatureFP .big false).getD default)).bind
        (fun bs => encoderDecode .temperatureFP bs
          ((mkField "temperature" [2, 3] none .temperatureFP .big false).getD default)) =
        some (.num q2) ∧ |q2 - 25| ≤ 1 / 512) :=
  ⟨c3_encoder_roundtrip.1 c6Field 5 (by decide) (by decide) (by decide),
   c3_encoder_roundtrip.2.1 bmpDigT3Field (-1000) (by decide) (by decide)
     (by decide) (by decide),
   c3_encoder_roundtrip.2.2.1 bmpModeField bmpModeTable (.str "forced") 0b10
     (by decide) (by decide) (by decide) (by decide) (by decide),
   c3_encoder_roundtrip.2.2.2.1 _ 50 (by decide) (by decide),
   c3_encoder_roundtrip.2.2.2.2 _ 25 (by decide) (by decide)⟩

theorem cacheUpdate_ctrlMeas (v1 v2 v3 : Option Val) (w1 w2 w3 : Val) :
    cacheUpdate [("osrs_t", v1), ("osrs_p", v2), ("mode", v3)]
      [("osrs_t", w1), ("osrs_p", w2), ("mode", w3)] =
    [("osrs_t", some w1), ("osrs_p", some w2), ("mode", some w3)] := by
  simp [cacheUpdate, dictUpsert]

theorem cacheUpdate_bmpConfig (v1 v2 v3 : Option Val) (w1 w2 w3 : Val) :
    cacheUpdate [("t_sb", v1), ("filter", v2), ("spi3w_en", v3)]
      [("t_sb", w1), ("filter", w2), ("spi3w_en", w3)] =
    [("t_sb", some w1), ("filter", some w2), ("spi3w_en", some w3)] := by
  simp [cacheUpdate, dictUpsert]

theorem cacheUpdate_hdcConfig (v1 v2 v3 v4 v5 v6 v7 : Option Val)
    (w1 w2 w3 w4 w5 w6 w7 : Val) :
    cacheUpdate [("reset", v1), ("heater_on", v2), ("measure_both", v3),
      ("battery_low", v4), ("temp_res_bits", v5), ("rh_res_bits", v6), ("reserved", v7)]
      [("reset", w1), ("heater_on", w2), ("temp_res_bits", w3), ("rh_res_bits", w4),
       ("measure_both", w5), ("reserved", w6), ("battery_low", w7)] =
    [("reset", some w1), ("heater_on", some w2), ("measure_both", some w5),
     ("battery_low", some w7), ("temp_res_bits", some w3), ("rh_res_bits", some w4),
     ("reserved", some w6)] := by
  simp [cacheUpdate, dictUpsert]

theorem runToBusFailure_of_cacheThenBus (es : List Effect) (c0 c : Cache)
    (h1 : isCacheThenBus es = true) (h2 : firstCacheSet es = some c) :
    runToBusFailure es c0 = c := by
  cases es with
  | nil => simp [isCacheThenBus] at h1
  | cons e rest =>
    cases e with
    | busWrite a bs => simp [firstCacheSet] at h2
    | cacheSet c2 =>
      cases rest with
      | nil => simp [isCacheThenBus] at h1
      | cons e2 rest2 =>
        cases e2 with
        | cacheSet c3 => simp [isCacheThenBus] at h1
        | busWrite a bs =>
          cases rest2 with
          | cons e3 r3 => simp [isCacheThenBus] at h1
          | nil =>
            simp only [firstCacheSet, Option.some.injEq] at h2
            subst h2
            rfl

/-- C10: in each of the five caching `write()` implementations (BMP280
`ctrl_meas` and `config`, HDC1080 `config`, CCS811 `meas_mode` and
`env_data`), the effect sequence of a valid write is exactly one cache
assignment followed by one transport write, and the assigned cache already
carries the new field values; together with the execution rule (final
conjunct), when the transport write raises, the state frozen at the failure
holds the new values in the cache while nothing was written to the bus. -/
theorem c10_cache_updated_before_transport :
    (∀ (v1 v2 v3 : Option Val) (p t : ℚ) (mode : String),
      p ∈ ([0, 1, 2, 4, 8, 16] : List ℚ) → t ∈ ([0, 1, 2, 4, 8, 16] : List ℚ) →
      mode ∈ ["trigger", "interval", "sleep"] →
      (ctrlMeasWrite [("osrs_t", v1), ("osrs_p", v2), ("mode", v3)] p t mode).map
          isCacheThenBus = some true ∧
      (ctrlMeasWrite [("osrs_t", v1), ("osrs_p", v2), ("mode", v3)] p t mode).bind
          firstCacheSet =
        some [("osrs_t", some (.num t)), ("osrs_p", some (.num p)),
          ("mode", some (.str ((([("trigger", "forced"), ("interval", "normal"),
            ("sleep", "sleep")] : List (String × String)).lookup mode).getD "")))]) ∧
    (∀ (v1 v2 v3 : Option Val) (period smoothing : ℚ) (disable : Bool),
      period ∈ ([1 / 2, 125 / 2, 125, 250, 500, 1000, 2000, 4000] : List ℚ) →
      smoothing ∈ ([1, 2, 4, 8, 16] : List ℚ) →
      (bmpConfigWrite [("t_sb", v1), ("filter", v2), ("spi3w_en", v3)]
          period smoothing disable).map isCacheThenBus = some true ∧
      (bmpConfigWrite [("t_sb", v1), ("filter", v2), ("spi3w_en", v3)]
          period smoothing disable).bind firstCacheSet =
        some [("t_sb", some (.num period)), ("filter", some (.num smoothing)),
          ("spi3w_en", some (boolVal disable))]) ∧
    (∀ (v1 v2 v3 v4 v5 v6 v7 : Option Val) (sr ho mb : Bool) (tr rr : ℚ),
      tr ∈ ([11, 14] : List ℚ) → rr ∈ ([8, 11, 14] : List ℚ) →
      (hdcConfigWrite [("reset", v1), ("heater_on", v2), ("measure_both", v3),
          ("battery_low", v4), ("temp_res_bits", v5), ("rh_res_bits", v6),
          ("reserved", v7)] sr ho tr rr mb).map isCacheThenBus = some true ∧
      (hdcConfigWrite [("reset", v1), ("heater_on", v2), ("measure_both", v3),
          ("battery_low", v4), ("temp_res_bits", v5), ("rh_res_bits", v6),
          ("reserved", v7)] sr ho tr rr mb).bind firstCacheSet =
        some [("reset", some (boolVal sr)), ("heater_on", some (boolVal ho)),
          ("measure_both", some (boolVal mb)), ("battery_low", some (boolVal false)),
          ("temp_res_bits", some (.num tr)), ("rh_res_bits", some (.num rr)),
          ("reserved", some (.num 0))]) ∧
    (∀ (cache : Cache) (sp : ℚ), sp ∈ ([0, 1 / 4, 1, 10, 60] : List ℚ) →
      (ccsMeasModeWrite cache sp).map isCacheThenBus = some true ∧
      (ccsMeasModeWrite cache sp).bind firstCacheSet =
        some [("sample_period", some (.num sp)), ("enable_interrupt", some (.num 0)),
          ("interrupt_on_thresh", some (.num 0))]) ∧
    (∀ (cache : Cache) (t h : ℚ), -25 ≤ t →
      (pyRound ((t + 25) * 512)).toNat < 256 ^ 2 →
      0 ≤ pyRound (h * 512) → (pyRound (h * 512)).toNat < 256 ^ 2 →
      (ccsEnvDataWrite cache t h).map isCacheThenBus = some true ∧
      (ccsEnvDataWrite cache t h).bind firstCacheSet =
        some [("temperature", some (.num t)), ("humidity", some (.num h))]) ∧
    (∀ (es : List Effect) (c0 c : Cache), isCacheThenBus es = true →
      firstCacheSet es = some c → runToBusFailure es c0 = c) := by
  refine ⟨?_, ?_, ?_, ?_, ?_, runToBusFailure_of_cacheThenBus⟩
  · intro v1 v2 v3 p t mode hp ht hmode
    simp only [List.mem_cons, List.not_mem_nil, or_false] at hp ht hmode
    rcases hmode with rfl | rfl | rfl <;>
      rcases hp with rfl | rfl | rfl | rfl | rfl | rfl <;>
        rcases ht with rfl | rfl | rfl | rfl | rfl | rfl <;>
          exact ⟨by
              simp only [ctrlMeasWrite]
              rw [if_neg (by decide), if_neg (by decide), if_neg (by decide),
                cacheUpdate_ctrlMeas]
              decide,
            by
              simp only [ctrlMeasWrite]
              rw [if_neg (by decide), if_neg (by decide), if_neg (by decide),
                cacheUpdate_ctrlMeas]
              decide⟩
  · intro v1 v2 v3 period smoothing disable hper hsm
    simp only [List.mem_cons, List.not_mem_nil, or_false] at hper hsm
    cases disable <;>
      rcases hper with rfl | rfl | rfl | rfl | rfl | rfl | rfl | rfl <;>
        rcases hsm with rfl | rfl | rfl | rfl | rfl <;>
          exact ⟨by
              simp only [bmpConfigWrite]
              rw [if_neg (by decide), if_neg (by decide), cacheUpdate_bmpConfig]
              decide,
            by
              simp only [bmpConfigWrite]
              rw [if_neg (by decide), if_neg (by decide), cacheUpdate_bmpConfig]
              decide⟩
  · intro v1 v2 v3 v4 v5 v6 v7 sr ho mb tr rr htr hrr
    simp only [List.mem_cons, List.not_mem_nil, or_false] at htr hrr
    cases sr <;> cases ho <;> cases mb <;>
      rcases htr with rfl | rfl <;>
        rcases hrr with rfl | rfl | rfl <;>
          exact ⟨by
              simp only [hdcConfigWrite]
              rw [if_neg (by decide), if_neg (by decide), cacheUpdate_hdcConfig]
              decide,
            by
              simp only [hdcConfigWrite]
              rw [if_neg (by decide), if_neg (by decide), cacheUpdate_hdcConfig]
              decide⟩
  · intro cache sp hsp
    simp only [List.mem_cons, List.not_mem_nil, or_false] at hsp
    rcases hsp with rfl | rfl | rfl | rfl | rfl <;>
      exact ⟨by
          simp only [ccsMeasModeWrite]
          rw [if_neg (by decide)]
          decide,
        by
          simp only [ccsMeasModeWrite]
          rw [if_neg (by decide)]
          decide⟩
  · intro cache t h h25 htfit hh0 hhfit
    have hq0 : (0 : ℚ) ≤ (t + 25) * 512 := by nlinarith
    have hmax : max (pyRound ((t + 25) * 512)) 0 = pyRound ((t + 25) * 512) :=
      max_eq_left (pyRound_nonneg hq0)
    have henc1 : ccsTempField.encode (.num t) =
        some (toBytesBE 2 (pyRound ((t + 25) * 512)).toNat) := by
      unfold Field.encode
      have he : encoderEncode .temperatureFP (.num t) ccsTempField =
          some (toBytesBE 2 (pyRound ((t + 25) * 512)).toNat) := by
        simp only [encoderEncode, hmax]
        exact toBytesOpt_isSome htfit
      rw [show ccsTempField.encoder = EncoderKind.temperatureFP from rfl, he]
      rfl
    have henc2 : ccsHumField.encode (.num h) =
        some (toBytesBE 2 (pyRound (h * 512)).toNat) := by
      unfold Field.encode
      have he : encoderEncode .humidityFP (.num h) ccsHumField =
          some (toBytesBE 2 (pyRound (h * 512)).toNat) := by
        simp only [encoderEncode]
        rw [if_pos hh0]
        exact toBytesOpt_isSome hhfit
      rw [show ccsHumField.encoder = EncoderKind.humidityFP from rfl, he]
      rfl
    have hpairs : mapOptM (encodeOne ccsEnvDataReg)
        [("temperature", Val.num t), ("humidity", Val.num h)] =
        some [([2, 3], toBytesBE 2 (pyRound ((t + 25) * 512)).toNat),
          ([0, 1], toBytesBE 2 (pyRound (h * 512)).toNat)] := by
      simp only [mapOptM, encodeOne]
      rw [show ccsEnvDataReg.getField "temperature" = some ccsTempField from rfl,
        show ccsEnvDataReg.getField "humidity" = some ccsHumField from rfl]
      simp only [Option.some_bind]
      rw [henc1, henc2]
      rfl
    have hgen : ∀ pa pb : List Nat,
        ((mapOptM
          (fun k => mergeGroup k
            ((List.filter (fun p => p.fst == k)
              [([2, 3], pa), ([0, 1], pb)]).map Prod.snd))
          (sortKeys (firstDedup
            (List.map Prod.fst [([2, 3], pa), ([0, 1], pb)])))).map
          List.flatten) = some (pb ++ (pa ++ [])) := by
      intro pa pb
      rfl
    have henc : field_values_to_raw_bytes ccsEnvDataReg
        [("temperature", Val.num t), ("humidity", Val.num h)] =
        some (toBytesBE 2 (pyRound (h * 512)).toNat ++
          (toBytesBE 2 (pyRound ((t + 25) * 512)).toNat ++ [])) := by
      unfold field_values_to_raw_bytes
      rw [hpairs, Option.some_bind]
      exact hgen _ _
    constructor
    · simp only [ccsEnvDataWrite]
      rw [henc]
      rfl
    · simp only [ccsEnvDataWrite]
      rw [henc]
      rfl

/-- C10 witness: the BMP280 ctrl_meas write and the CCS811 env_data write at
concrete arguments, and the execution rule at the resulting effect list. -/
theorem c10_cache_updated_before_transport_witness :
    ((ctrlMeasWrite [("osrs_t", none), ("osrs_p", none), ("mode", none)] 16 2
        "trigger").map isCacheThenBus = some true ∧
      (ctrlMeasWrite [("osrs_t", none), ("osrs_p", none), ("mode", none)] 16 2
        "trigger").bind firstCacheSet =
      some [("osrs_t", some (.num 2)), ("osrs_p", some (.num 16)),
        ("mode", some (.str ((([("trigger", "forced"), ("interval", "normal"),
          ("sleep", "sleep")] : List (String × String)).lookup "trigger").getD "")))]) ∧
    ((ccsEnvDataWrite [] 25 50).map isCacheThenBus = some true ∧
      (ccsEnvDataWrite [] 25 50).bind firstCacheSet =
        some [("temperature", some (.num 25)), ("humidity", some (.num 50))]) ∧
    runToBusFailure [.cacheSet [("a", some (.num 1))], .busWrite 0 [0]] [] =
      [("a", some (.num 1))] :=
  ⟨c10_cache_updated_before_transport.1 none none none 16 2 "trigger"
      (by decide) (by decide) (by decide),
   c10_cache_updated_before_transport.2.2.2.2.1 [] 25 50
      (by decide) (by decide) (by decide) (by decide),
   c10_cache_updated_before_transport.2.2.2.2.2
      [.cacheSet [("a", some (.num 1))], .busWrite 0 [0]] [] [("a", some (.num 1))]
      (by decide) (by decide)⟩

end AirQuality

